import Mathlib

/-!
# Verification of `mr.py` — a Monte Carlo Elo rating simulator

Shallow embedding of the rating system in `src/mr.py`:

* `EloPlayer` with `expected_score` and `update_rating` (lines 6–28);
* `MatchmakingSystem.find_match` (lines 31–62), with object identity
  modelled by list indices and `random.choice` modelled by an arbitrary
  index into the candidate list;
* `simulate_match` (lines 65–80), with the uniform outcome draw passed
  in as an explicit real number;
* `monte_carlo_elo_simulation` (lines 83–107), with the per-round random
  draws (subject pick, opponent pick, outcome draw) passed in as a list.

Python floats are modelled as real numbers; Python exceptions
(`random.choice` on an empty sequence raises `IndexError`) as `Option`.
-/

open Real

/-- A player: current rating, full rating history, number of matches played
(`EloPlayer.__init__`, mr.py lines 7–10 sets `rating = initial_rating`,
`rating_history = [initial_rating]`, `matches_played = 0`). -/
structure EloPlayer where
  rating : ℝ
  rating_history : List ℝ
  matches_played : ℕ

instance : Inhabited EloPlayer := ⟨⟨1500, [1500], 0⟩⟩

/-- `EloPlayer(initial_rating)` — constructor, mr.py lines 7–10. -/
def mkEloPlayer (initial_rating : ℝ) : EloPlayer :=
  { rating := initial_rating
    rating_history := [initial_rating]
    matches_played := 0 }

/-- `EloPlayer.expected_score` (mr.py lines 12–14):
`1 / (1 + 10 ** ((opponent_rating - self.rating) / 400))`. -/
noncomputable def EloPlayer.expected_score (self : EloPlayer) (opponent_rating : ℝ) : ℝ :=
  1 / (1 + (10 : ℝ) ^ ((opponent_rating - self.rating) / 400))

/-- `EloPlayer.update_rating` (mr.py lines 16–28): computes the expected
score, the rating change `k_factor * (actual_score - expected_score)`,
adds it to the rating, appends the new rating to the history, increments
`matches_played`, and returns the rating change.  The mutated player is
returned alongside the returned value. -/
noncomputable def EloPlayer.update_rating (self : EloPlayer) (opponent_rating actual_score : ℝ)
    (k_factor : ℝ := 32) : ℝ × EloPlayer :=
  let expected_score := self.expected_score opponent_rating
  let rating_change := k_factor * (actual_score - expected_score)
  let new_rating := self.rating + rating_change
  (rating_change,
    { rating := new_rating
      rating_history := self.rating_history ++ [new_rating]
      matches_played := self.matches_played + 1 })

/-- `random.choice(seq)`: a uniform pick from a sequence, modelled by an
arbitrary index reduced modulo the length.  On an empty sequence Python
raises `IndexError`, modelled by `none`. -/
def random_choice {α : Type} (seq : List α) (pick : ℕ) : Option α :=
  seq[pick % seq.length]?

/-- `MatchmakingSystem.__init__` (mr.py lines 31–39): holds the player
list and `rating_range_percentage` (default 0.2).  Python's object
identity on players is modelled by list indices. -/
structure MatchmakingSystem where
  players : List EloPlayer
  rating_range_percentage : ℝ := 0.2

/-- The `potential_opponents` list built by `find_match`
(mr.py lines 46–59) for the subject at index `i`: indices `j ≠ i` whose
rating lies in `[rating*(1-pct), rating*(1+pct)]`; if that list is empty,
all indices `j ≠ i` (the unconditional fallback). -/
noncomputable def MatchmakingSystem.potential_opponents (self : MatchmakingSystem) (i : ℕ) :
    List ℕ :=
  let player := self.players.getD i default
  let min_rating := player.rating * (1 - self.rating_range_percentage)
  let max_rating := player.rating * (1 + self.rating_range_percentage)
  let in_range := (List.range self.players.length).filter
    (fun j => j ≠ i ∧ min_rating ≤ (self.players.getD j default).rating ∧
      (self.players.getD j default).rating ≤ max_rating)
  if in_range.isEmpty then (List.range self.players.length).filter (fun j => j ≠ i)
  else in_range

/-- `MatchmakingSystem.find_match` (mr.py lines 41–62): returns
`random.choice(potential_opponents)`, here as the index of the chosen
opponent (`pick` models the random draw consumed by `random.choice`). -/
noncomputable def MatchmakingSystem.find_match (self : MatchmakingSystem) (i pick : ℕ) :
    Option ℕ :=
  random_choice (self.potential_opponents i) pick

/-- `simulate_match` (mr.py lines 65–80): `random_value` is the uniform
draw of line 71.  If `random_value < expected_score1` player1 wins
(`update_rating(player2.rating, 1)` then, on player2,
`update_rating(player1.rating, 0)` — reading `player1.rating` *after*
player1's update mutated it, exactly as the Python attribute access
does); otherwise player2 wins symmetrically.  Returns the winner
indicator (1 or 2) and the two mutated players. -/
noncomputable def simulate_match (player1 player2 : EloPlayer) (random_value : ℝ) :
    ℕ × EloPlayer × EloPlayer :=
  let expected_score1 := player1.expected_score player2.rating
  if random_value < expected_score1 then
    let r1 := player1.update_rating player2.rating 1
    let r2 := player2.update_rating r1.2.rating 0
    (1, r1.2, r2.2)
  else
    let r1 := player1.update_rating player2.rating 0
    let r2 := player2.update_rating r1.2.rating 1
    (2, r1.2, r2.2)

/-- The pair of `rating_change` values returned by the two
`EloPlayer.update_rating` calls that `simulate_match` performs
(mr.py lines 74–75 / 78–79; the Python code discards them). -/
noncomputable def simulate_match_deltas (player1 player2 : EloPlayer) (random_value : ℝ) :
    ℝ × ℝ :=
  let expected_score1 := player1.expected_score player2.rating
  if random_value < expected_score1 then
    let r1 := player1.update_rating player2.rating 1
    let r2 := player2.update_rating r1.2.rating 0
    (r1.1, r2.1)
  else
    let r1 := player1.update_rating player2.rating 0
    let r2 := player2.update_rating r1.2.rating 1
    (r1.1, r2.1)

/-- `simulate_match` with the two `update_rating` calls applied in the
opposite order (player2's update first), each call still reading the
opponent's *current* rating attribute as the Python code does.  Used to
test order-(in)dependence of the final rating pair. -/
noncomputable def simulate_match_p2_first (player1 player2 : EloPlayer) (random_value : ℝ) :
    ℕ × EloPlayer × EloPlayer :=
  let expected_score1 := player1.expected_score player2.rating
  if random_value < expected_score1 then
    let r2 := player2.update_rating player1.rating 0
    let r1 := player1.update_rating r2.2.rating 1
    (1, r1.2, r2.2)
  else
    let r2 := player2.update_rating player1.rating 1
    let r1 := player1.update_rating r2.2.rating 0
    (2, r1.2, r2.2)

/-- Modelled from the spec: the spec (§4.4, §6) describes `kFactor` as a
configurable parameter threaded through the match simulation into both
`update_rating` calls; the source's `simulate_match` takes no such
parameter.  This definition is the source's `simulate_match` with the
spec's `kFactor` parameter passed to both updates. -/
noncomputable def simulate_match_with_k (k_factor : ℝ) (player1 player2 : EloPlayer)
    (random_value : ℝ) : ℕ × EloPlayer × EloPlayer :=
  let expected_score1 := player1.expected_score player2.rating
  if random_value < expected_score1 then
    let r1 := player1.update_rating player2.rating 1 k_factor
    let r2 := player2.update_rating r1.2.rating 0 k_factor
    (1, r1.2, r2.2)
  else
    let r1 := player1.update_rating player2.rating 0 k_factor
    let r2 := player2.update_rating r1.2.rating 1 k_factor
    (2, r1.2, r2.2)

/-- One iteration of the simulation loop (mr.py lines 98–105):
`p1 = random.choice(players)`, `p2 = matchmaker.find_match(p1)`,
`winner = simulate_match(p1, p2)`.  The in-place mutation of the two
players is modelled by writing the updated players back at their
indices.  `pick1`/`pick2` model the two random draws, `rv` the outcome
draw inside `simulate_match`. -/
noncomputable def simulation_round (players : List EloPlayer) (pick1 pick2 : ℕ) (rv : ℝ) :
    Option (List EloPlayer × ℕ) :=
  match random_choice (List.range players.length) pick1 with
  | none => none
  | some i =>
    match MatchmakingSystem.find_match ⟨players, 0.2⟩ i pick2 with
    | none => none
    | some j =>
      let p1 := players.getD i default
      let p2 := players.getD j default
      let res := simulate_match p1 p2 rv
      some ((players.set i res.2.1).set j res.2.2, res.1)

/-- One step of the driver's `for` loop over rounds: run
`simulation_round` on the current population, append the winner
indicator to `match_results` (mr.py lines 98–105); a raising round
aborts the run (`none`). -/
noncomputable def simulation_step (acc : Option (List EloPlayer × List ℕ))
    (round : ℕ × ℕ × ℝ) : Option (List EloPlayer × List ℕ) :=
  match acc with
  | none => none
  | some (ps, match_results) =>
    match simulation_round ps round.1 round.2.1 round.2.2 with
    | none => none
    | some (ps', winner) => some (ps', match_results ++ [winner])

/-- `monte_carlo_elo_simulation` (mr.py lines 83–107): builds
`num_players` fresh players at `initial_rating`, one matchmaking system
over them (with the default `rating_range_percentage = 0.2`), then runs
one `simulation_round` per entry of `rounds` (each entry is the triple
of random draws a round consumes), collecting the winner indicators in
`match_results`. -/
noncomputable def monte_carlo_elo_simulation (num_players : ℕ) (initial_rating : ℝ)
    (rounds : List (ℕ × ℕ × ℝ)) : Option (List EloPlayer × List ℕ) :=
  let players := (List.range num_players).map (fun _ => mkEloPlayer initial_rating)
  rounds.foldl simulation_step (some (players, []))

/-- A sequence of `update_rating` calls applied to one player
(each entry: opponent rating, actual score, k-factor). -/
noncomputable def apply_updates (p : EloPlayer) (updates : List (ℝ × ℝ × ℝ)) : EloPlayer :=
  updates.foldl (fun q u => (q.update_rating u.1 u.2.1 u.2.2).2) p

/-- The history-length invariant of the spec (§3):
`len(rating_history) == matches_played + 1`. -/
def history_invariant (p : EloPlayer) : Prop :=
  p.rating_history.length = p.matches_played + 1

/-! ## Basic facts about the rating model -/

/-- Against an equally-rated opponent the expected score is `1/2`
(the exponent is `0` and `10 ^ 0 = 1`). -/
lemma expected_score_self (p : EloPlayer) : p.expected_score p.rating = 1 / 2 := by
  simp [EloPlayer.expected_score]
  norm_num

/-- C7: for all finite ratings A and B,
`expectedScore(A,B) + expectedScore(B,A) = 1`, where
`expectedScore(A,B) = 1 / (1 + 10^((B - A)/400))`
(`EloPlayer.expected_score`, mr.py lines 12–14). -/
theorem expected_score_complement (p q : EloPlayer) :
    p.expected_score q.rating + q.expected_score p.rating = 1 := by
  unfold EloPlayer.expected_score
  have hswap : (p.rating - q.rating) / 400 = -((q.rating - p.rating) / 400) := by ring
  rw [hswap, Real.rpow_neg (by norm_num : (0:ℝ) ≤ 10)]
  have ht : (0:ℝ) < (10 : ℝ) ^ ((q.rating - p.rating) / 400) :=
    Real.rpow_pos_of_pos (by norm_num) _
  have h1 : (1:ℝ) + (10 : ℝ) ^ ((q.rating - p.rating) / 400) ≠ 0 := by positivity
  field_simp
  ring

/-- C4: `update_rating` (mr.py lines 16–28) computes
`expected = expected_score(self.rating, opponent_rating)` and
`delta = k_factor * (actual_score - expected)`, then sets the rating to
`rating + delta`, appends the new rating to `rating_history`, increments
`matches_played` by exactly one, and returns `delta`. -/
theorem update_rating_spec (p : EloPlayer) (opponent_rating actual_score k_factor : ℝ)
    (h : actual_score = 0 ∨ actual_score = 1) :
    (p.update_rating opponent_rating actual_score k_factor).1 =
      k_factor * (actual_score - p.expected_score opponent_rating) ∧
    (p.update_rating opponent_rating actual_score k_factor).2.rating =
      p.rating + (p.update_rating opponent_rating actual_score k_factor).1 ∧
    (p.update_rating opponent_rating actual_score k_factor).2.rating_history =
      p.rating_history ++ [(p.update_rating opponent_rating actual_score k_factor).2.rating] ∧
    (p.update_rating opponent_rating actual_score k_factor).2.matches_played =
      p.matches_played + 1 :=
  ⟨rfl, rfl, rfl, rfl⟩

/-- Witness for `update_rating_spec` at a concrete input (a win at
equal ratings with the default k-factor). -/
theorem update_rating_spec_witness :
    ((mkEloPlayer 1500).update_rating 1500 1 32).1 =
      32 * (1 - (mkEloPlayer 1500).expected_score 1500) ∧
    ((mkEloPlayer 1500).update_rating 1500 1 32).2.rating =
      (mkEloPlayer 1500).rating + ((mkEloPlayer 1500).update_rating 1500 1 32).1 ∧
    ((mkEloPlayer 1500).update_rating 1500 1 32).2.rating_history =
      (mkEloPlayer 1500).rating_history ++
        [((mkEloPlayer 1500).update_rating 1500 1 32).2.rating] ∧
    ((mkEloPlayer 1500).update_rating 1500 1 32).2.matches_played =
      (mkEloPlayer 1500).matches_played + 1 :=
  update_rating_spec (mkEloPlayer 1500) 1500 1 32 (Or.inr rfl)

/-- C6: `len(rating_history) = matches_played + 1` holds at creation
(mr.py lines 7–10), is preserved by every `update_rating`
(mr.py lines 16–28), and hence holds after any sequence of updates. -/
theorem history_invariant_always :
    (∀ r : ℝ, history_invariant (mkEloPlayer r)) ∧
    (∀ (p : EloPlayer) (opponent_rating actual_score k_factor : ℝ),
      history_invariant p →
      history_invariant (p.update_rating opponent_rating actual_score k_factor).2) ∧
    (∀ (r : ℝ) (updates : List (ℝ × ℝ × ℝ)),
      history_invariant (apply_updates (mkEloPlayer r) updates)) := by
  have hinit : ∀ r : ℝ, history_invariant (mkEloPlayer r) := by
    intro r
    simp [history_invariant, mkEloPlayer]
  have hstep : ∀ (p : EloPlayer) (o s k : ℝ),
      history_invariant p → history_invariant (p.update_rating o s k).2 := by
    intro p o s k hp
    unfold history_invariant EloPlayer.update_rating at *
    simp [hp]
  refine ⟨hinit, hstep, ?_⟩
  intro r updates
  have hfold : ∀ (l : List (ℝ × ℝ × ℝ)) (p : EloPlayer),
      history_invariant p → history_invariant (apply_updates p l) := by
    intro l
    induction l with
    | nil =>
      intro p hp
      simpa [apply_updates] using hp
    | cons u t ih =>
      intro p hp
      have h1 := hstep p u.1 u.2.1 u.2.2 hp
      simpa [apply_updates, List.foldl_cons] using ih _ h1
  exact hfold updates _ (hinit r)

/-- Witness for `history_invariant_always`: the preservation conjunct
applied to a freshly created player after one update. -/
theorem history_invariant_always_witness :
    history_invariant ((mkEloPlayer 1500).update_rating 1500 1 32).2 :=
  history_invariant_always.2.1 (mkEloPlayer 1500) 1500 1 32
    (by simp [history_invariant, mkEloPlayer])

/-! ## Matchmaking -/

/-- `random.choice` on a nonempty sequence returns a member. -/
lemma random_choice_mem {α : Type} (seq : List α) (pick : ℕ) (h : seq ≠ []) :
    ∃ a, random_choice seq pick = some a ∧ a ∈ seq := by
  have hlen : 0 < seq.length := List.length_pos.mpr h
  have hm : pick % seq.length < seq.length := Nat.mod_lt _ hlen
  exact ⟨seq[pick % seq.length], by simp [random_choice, List.getElem?_eq_getElem hm],
    List.getElem_mem hm⟩

/-- Every member of a sequence is returned by `random.choice` for some
value of the random draw. -/
lemma random_choice_reaches {α : Type} (seq : List α) (a : α) (h : a ∈ seq) :
    ∃ pick, random_choice seq pick = some a := by
  obtain ⟨n, hn, hget⟩ := List.mem_iff_getElem.mp h
  refine ⟨n, ?_⟩
  have : n % seq.length = n := Nat.mod_eq_of_lt hn
  simp [random_choice, this, List.getElem?_eq_getElem hn, hget]

/-- Membership in the `potential_opponents` list: an index `j` is a
potential opponent iff it is a valid index other than the subject's and
either its rating is in the matchmaking band, or no other player's
rating is (the fallback case). -/
lemma mem_potential_opponents (m : MatchmakingSystem) (i j : ℕ) :
    j ∈ m.potential_opponents i ↔
      (j < m.players.length ∧ j ≠ i ∧
        (((m.players.getD i default).rating * (1 - m.rating_range_percentage) ≤
            (m.players.getD j default).rating ∧
          (m.players.getD j default).rating ≤
            (m.players.getD i default).rating * (1 + m.rating_range_percentage)) ∨
         (∀ j', j' < m.players.length → j' ≠ i →
           ¬((m.players.getD i default).rating * (1 - m.rating_range_percentage) ≤
               (m.players.getD j' default).rating ∧
             (m.players.getD j' default).rating ≤
               (m.players.getD i default).rating * (1 + m.rating_range_percentage))))) := by
  have hmf : ∀ (lo hi2 : ℝ) (jj : ℕ),
      jj ∈ (List.range m.players.length).filter
        (fun j => decide (j ≠ i ∧ lo ≤ (m.players.getD j default).rating ∧
          (m.players.getD j default).rating ≤ hi2)) ↔
      (jj < m.players.length ∧ jj ≠ i ∧ lo ≤ (m.players.getD jj default).rating ∧
        (m.players.getD jj default).rating ≤ hi2) := by
    intro lo hi2 jj
    rw [List.mem_filter, List.mem_range, decide_eq_true_eq]
  have hmf2 : ∀ jj : ℕ,
      jj ∈ (List.range m.players.length).filter (fun j => decide (j ≠ i)) ↔
      (jj < m.players.length ∧ jj ≠ i) := by
    intro jj
    rw [List.mem_filter, List.mem_range, decide_eq_true_eq]
  unfold MatchmakingSystem.potential_opponents
  dsimp only
  split
  · rename_i hempty
    rw [List.isEmpty_iff] at hempty
    have hnoband : ∀ j', j' < m.players.length → j' ≠ i →
        ¬((m.players.getD i default).rating * (1 - m.rating_range_percentage) ≤
            (m.players.getD j' default).rating ∧
          (m.players.getD j' default).rating ≤
            (m.players.getD i default).rating * (1 + m.rating_range_percentage)) := by
      intro j' hj'n hj'i hband
      have : j' ∈ ([] : List ℕ) := by
        rw [← hempty, hmf]
        exact ⟨hj'n, hj'i, hband⟩
      exact absurd this (List.not_mem_nil j')
    rw [hmf2]
    constructor
    · rintro ⟨hjn, hji⟩
      exact ⟨hjn, hji, Or.inr hnoband⟩
    · rintro ⟨hjn, hji, _⟩
      exact ⟨hjn, hji⟩
  · rename_i hempty
    have hne : ¬((List.range m.players.length).filter
        (fun j => decide (j ≠ i ∧
          (m.players.getD i default).rating * (1 - m.rating_range_percentage) ≤
            (m.players.getD j default).rating ∧
          (m.players.getD j default).rating ≤
            (m.players.getD i default).rating * (1 + m.rating_range_percentage))) = []) := by
      intro hnil
      exact hempty (List.isEmpty_iff.mpr hnil)
    rw [hmf]
    constructor
    · rintro ⟨hjn, hji, hband⟩
      exact ⟨hjn, hji, Or.inl hband⟩
    · rintro ⟨hjn, hji, hor⟩
      rcases hor with hband | hnone
      · exact ⟨hjn, hji, hband⟩
      · exfalso
        obtain ⟨a, ha⟩ := List.exists_mem_of_ne_nil _ hne
        rw [hmf] at ha
        exact hnone a ha.1 ha.2.1 ha.2.2

/-- With at least two players and a valid subject index the candidate
list is nonempty (the fallback always contains some other index). -/
lemma potential_opponents_ne_nil (m : MatchmakingSystem) (i : ℕ)
    (h2 : 2 ≤ m.players.length) : m.potential_opponents i ≠ [] := by
  intro hnil
  have hnomem : ∀ j : ℕ, j ∉ m.potential_opponents i := by
    intro j hj
    rw [hnil] at hj
    exact absurd hj (List.not_mem_nil j)
  -- some index other than the subject's exists
  have hj0 : ∃ j0, j0 < m.players.length ∧ j0 ≠ i := by
    by_cases hi0 : i = 0
    · exact ⟨1, by omega, by omega⟩
    · exact ⟨0, by omega, fun h => hi0 h.symm⟩
  obtain ⟨j0, hj0n, hj0i⟩ := hj0
  by_cases hb : ∃ j', j' < m.players.length ∧ j' ≠ i ∧
      ((m.players.getD i default).rating * (1 - m.rating_range_percentage) ≤
          (m.players.getD j' default).rating ∧
        (m.players.getD j' default).rating ≤
          (m.players.getD i default).rating * (1 + m.rating_range_percentage))
  · obtain ⟨j', hj'n, hj'i, hband⟩ := hb
    exact hnomem j' ((mem_potential_opponents m i j').mpr ⟨hj'n, hj'i, Or.inl hband⟩)
  · push_neg at hb
    refine hnomem j0 ((mem_potential_opponents m i j0).mpr ⟨hj0n, hj0i, Or.inr ?_⟩)
    intro j' hj'n hj'i hband
    exact absurd hband.2 (not_le.mpr (hb j' hj'n hj'i hband.1))

/-- C8: when the population has fewer than 2 members (and the subject is
one of them, as in every call the driver makes), `find_match` fails —
the candidate list and its fallback are both empty, so the modelled
`random.choice` signals the violation (`none`, modelling the `IndexError`
Python raises) instead of returning an opponent. -/
theorem find_match_small_population (m : MatchmakingSystem) (i pick : ℕ)
    (hlen : m.players.length < 2) (hi : i < m.players.length) :
    m.find_match i pick = none := by
  have hempty : m.potential_opponents i = [] := by
    rcases List.eq_nil_or_concat (m.potential_opponents i) with hnil | ⟨l, a, hconcat⟩
    · exact hnil
    · exfalso
      have ha : a ∈ m.potential_opponents i := by
        rw [hconcat, List.concat_eq_append]
        exact List.mem_append.mpr (Or.inr (List.mem_singleton.mpr rfl))
      have := (mem_potential_opponents m i a).mp ha
      omega
  rw [MatchmakingSystem.find_match, hempty]
  rfl

/-- Witness for `find_match_small_population`: a one-player population. -/
theorem find_match_small_population_witness :
    MatchmakingSystem.find_match ⟨[mkEloPlayer 1500], 0.2⟩ 0 0 = none :=
  find_match_small_population ⟨[mkEloPlayer 1500], 0.2⟩ 0 0 (by simp) (by simp)

/-- C5: with at least two players and the subject at a valid index `i`,
`find_match` (1) always succeeds, (2) never returns the subject and
returns a member of the candidate list, (3) the candidate list consists
exactly of the non-subject indices whose rating lies in
`[rating*(1-pct), rating*(1+pct)]` inclusive — or, when no such index
exists, of all non-subject indices (the unconditional fallback) — and
(4) every candidate is returned for some value of the random draw
(`random.choice` is modelled as an arbitrary index into the candidate
list). -/
theorem find_match_spec (m : MatchmakingSystem) (i pick : ℕ)
    (hi : i < m.players.length) (h2 : 2 ≤ m.players.length) :
    (∃ j, m.find_match i pick = some j) ∧
    (∀ j, m.find_match i pick = some j → j ≠ i ∧ j ∈ m.potential_opponents i) ∧
    (∀ j, j ∈ m.potential_opponents i ↔
      (j < m.players.length ∧ j ≠ i ∧
        (((m.players.getD i default).rating * (1 - m.rating_range_percentage) ≤
            (m.players.getD j default).rating ∧
          (m.players.getD j default).rating ≤
            (m.players.getD i default).rating * (1 + m.rating_range_percentage)) ∨
         (∀ j', j' < m.players.length → j' ≠ i →
           ¬((m.players.getD i default).rating * (1 - m.rating_range_percentage) ≤
               (m.players.getD j' default).rating ∧
             (m.players.getD j' default).rating ≤
               (m.players.getD i default).rating * (1 + m.rating_range_percentage)))))) ∧
    (∀ j, j ∈ m.potential_opponents i → ∃ pk, m.find_match i pk = some j) := by
  have hne := potential_opponents_ne_nil m i h2
  refine ⟨?_, ?_, fun j => mem_potential_opponents m i j, ?_⟩
  · obtain ⟨a, ha, _⟩ := random_choice_mem (m.potential_opponents i) pick hne
    exact ⟨a, ha⟩
  · intro j hj
    obtain ⟨a, ha, hamem⟩ := random_choice_mem (m.potential_opponents i) pick hne
    rw [MatchmakingSystem.find_match] at hj
    rw [ha] at hj
    obtain rfl : a = j := Option.some.inj hj
    exact ⟨((mem_potential_opponents m i a).mp hamem).2.1, hamem⟩
  · intro j hj
    exact random_choice_reaches _ j hj

/-- Witness for `find_match_spec`: two 1500-rated players, subject index 0.
The candidate list is `[1]` and the opponent returned is index 1 ≠ 0. -/
lemma potential_opponents_pair :
    MatchmakingSystem.potential_opponents ⟨[mkEloPlayer 1500, mkEloPlayer 1500], 0.2⟩ 0 =
      [1] := by
  unfold MatchmakingSystem.potential_opponents
  dsimp only
  have hr : List.range (List.length [mkEloPlayer 1500, mkEloPlayer 1500]) = [0, 1] := rfl
  rw [hr]
  norm_num [List.filter_cons, List.filter_nil, mkEloPlayer]

/-- `find_match` on two 1500-rated players from subject 0 returns
opponent 1. -/
lemma find_match_pair :
    MatchmakingSystem.find_match ⟨[mkEloPlayer 1500, mkEloPlayer 1500], 0.2⟩ 0 0 = some 1 := by
  rw [MatchmakingSystem.find_match, potential_opponents_pair]
  rfl

/-- Witness for `find_match_spec`: its soundness conjunct applied to the
concrete two-player population. -/
theorem find_match_spec_witness :
    (1 : ℕ) ≠ 0 ∧
    1 ∈ MatchmakingSystem.potential_opponents ⟨[mkEloPlayer 1500, mkEloPlayer 1500], 0.2⟩ 0 :=
  (find_match_spec ⟨[mkEloPlayer 1500, mkEloPlayer 1500], 0.2⟩ 0 0 (by simp) (by simp)).2.1
    1 find_match_pair

/-! ## Concrete match evaluations

One match between two 1500-rated players with outcome draw `1/4 < 1/2`,
so player1 wins.  Player1's update is exact: `1500 + 32·(1 − 1/2) = 1516`.
Player2's update then reads player1's *already mutated* rating 1516
(mr.py line 75 evaluates `player1.rating` after line 74 ran), so its
expected score is `1/(1 + 10^((1516−1500)/400)) = 1/(1 + 10^(1/25))`,
not `1/2`. -/

lemma one_lt_ten_rpow : (1 : ℝ) < (10 : ℝ) ^ ((1 : ℝ) / 25) :=
  (Real.one_lt_rpow_iff_of_pos (by norm_num)).mpr (Or.inl ⟨by norm_num, by norm_num⟩)

lemma ten_rpow_neg_lt_one : (10 : ℝ) ^ (-((1 : ℝ) / 25)) < 1 :=
  Real.rpow_lt_one_of_one_lt_of_neg (by norm_num) (by norm_num)

lemma ten_rpow_pos (x : ℝ) : (0 : ℝ) < (10 : ℝ) ^ x :=
  Real.rpow_pos_of_pos (by norm_num) x

/-- Full evaluation of the concrete match (code order: player1 first). -/
lemma simulate_match_eval :
    simulate_match (mkEloPlayer 1500) (mkEloPlayer 1500) (1/4) =
      (1, ⟨1516, [1500, 1516], 1⟩,
       ⟨1500 - 32 * (1 / (1 + (10:ℝ) ^ ((1:ℝ)/25))),
        [1500, 1500 - 32 * (1 / (1 + (10:ℝ) ^ ((1:ℝ)/25)))], 1⟩) := by
  norm_num [simulate_match, EloPlayer.update_rating, EloPlayer.expected_score, mkEloPlayer,
    Real.rpow_zero]
  ring

/-- The two deltas of the concrete match. -/
lemma simulate_match_deltas_eval :
    simulate_match_deltas (mkEloPlayer 1500) (mkEloPlayer 1500) (1/4) =
      (16, -(32 / (1 + (10:ℝ) ^ ((1:ℝ)/25)))) := by
  norm_num [simulate_match_deltas, EloPlayer.update_rating, EloPlayer.expected_score, mkEloPlayer,
    Real.rpow_zero]
  ring

/-- Player1's final rating in the concrete match when player2's update is
applied first. -/
lemma simulate_match_p2_first_rating :
    (simulate_match_p2_first (mkEloPlayer 1500) (mkEloPlayer 1500) (1/4)).2.1.rating =
      1500 + 32 * (1 - 1 / (1 + (10:ℝ) ^ (-((1:ℝ)/25)))) := by
  norm_num [simulate_match_p2_first, EloPlayer.update_rating, EloPlayer.expected_score,
    mkEloPlayer, Real.rpow_zero]

/-- C1: REFUTED — the updates do *not* both use the pre-match opponent
rating: mr.py line 75 passes `player1.rating` to player2's update after
line 74 has already mutated it.  Consequently the pair of final ratings
depends on which player's update is applied first: for two 1500-rated
players with outcome draw `1/4` (player1 wins), the code's order
(player1 first) yields final ratings `(1516, 1500 − 32/(1 + 10^(1/25)))`
while applying player2's update first yields
`(1500 + 32·(1 − 1/(1 + 10^(−1/25))), 1484)` — different pairs. -/
theorem simulate_match_order_dependent :
    ((simulate_match (mkEloPlayer 1500) (mkEloPlayer 1500) (1/4)).2.1.rating,
     (simulate_match (mkEloPlayer 1500) (mkEloPlayer 1500) (1/4)).2.2.rating) ≠
    ((simulate_match_p2_first (mkEloPlayer 1500) (mkEloPlayer 1500) (1/4)).2.1.rating,
     (simulate_match_p2_first (mkEloPlayer 1500) (mkEloPlayer 1500) (1/4)).2.2.rating) := by
  intro hpair
  have h1 : (simulate_match (mkEloPlayer 1500) (mkEloPlayer 1500) (1/4)).2.1.rating =
      (simulate_match_p2_first (mkEloPlayer 1500) (mkEloPlayer 1500) (1/4)).2.1.rating :=
    congrArg Prod.fst hpair
  rw [simulate_match_eval, simulate_match_p2_first_rating] at h1
  have htpos := ten_rpow_pos (-((1 : ℝ) / 25))
  have htlt := ten_rpow_neg_lt_one
  have hdenom : (0:ℝ) < 1 + (10 : ℝ) ^ (-((1 : ℝ) / 25)) := by linarith
  have h1' : (1516 : ℝ) = 1500 + 32 * (1 - 1 / (1 + (10:ℝ) ^ (-((1:ℝ)/25)))) := h1
  field_simp at h1'
  linarith

/-- C2: REFUTED — the two deltas of one simulated match are *not*
zero-sum: player2's update (mr.py line 75) uses player1's already
updated rating, so for two 1500-rated players with outcome draw `1/4`
the deltas are `16` and `−32/(1 + 10^(1/25))`, and
`16 ≠ 32/(1 + 10^(1/25))` because `10^(1/25) ≠ 1`. -/
theorem simulate_match_deltas_not_zero_sum :
    (simulate_match_deltas (mkEloPlayer 1500) (mkEloPlayer 1500) (1/4)).1 ≠
    -(simulate_match_deltas (mkEloPlayer 1500) (mkEloPlayer 1500) (1/4)).2 := by
  rw [simulate_match_deltas_eval]
  intro h
  have htpos := ten_rpow_pos ((1 : ℝ) / 25)
  have htgt := one_lt_ten_rpow
  have hdenom : (0:ℝ) < 1 + (10 : ℝ) ^ ((1 : ℝ) / 25) := by linarith
  have h' : (16 : ℝ) = 32 / (1 + (10:ℝ) ^ ((1:ℝ)/25)) := by
    simpa using h
  field_simp at h'
  linarith

/-- C3: REFUTED in its second half — with both players at 1500, k-factor
32, and an outcome draw below 0.5, player1 wins and its rating becomes
exactly 1516, but player2's rating becomes
`1500 − 32/(1 + 10^(1/25)) ≈ 1484.74`, not 1484: player2's update
(mr.py line 75) sees player1's new rating 1516 rather than the
pre-match 1500. -/
theorem simulate_match_1500_scenario :
    (simulate_match (mkEloPlayer 1500) (mkEloPlayer 1500) (1/4)).1 = 1 ∧
    (simulate_match (mkEloPlayer 1500) (mkEloPlayer 1500) (1/4)).2.1.rating = 1516 ∧
    (simulate_match (mkEloPlayer 1500) (mkEloPlayer 1500) (1/4)).2.2.rating ≠ 1484 := by
  rw [simulate_match_eval]
  refine ⟨rfl, rfl, ?_⟩
  intro h
  have htpos := ten_rpow_pos ((1 : ℝ) / 25)
  have htgt := one_lt_ten_rpow
  have hdenom : (0:ℝ) < 1 + (10 : ℝ) ^ ((1 : ℝ) / 25) := by linarith
  have h' : (1500 : ℝ) - 32 * (1 / (1 + (10:ℝ) ^ ((1:ℝ)/25))) = 1484 := h
  field_simp at h'
  linarith

/-- C9 counterexample: the rating updates inside `simulate_match` do not
use a configurable k-factor — with two 1500-rated players and outcome
draw `1/4`, the code moves player1 to 1516 (k = 32 hard-wired via the
default), whereas the spec's configurable version at `kFactor = 16`
would move it to 1508. -/
theorem simulate_match_k_not_configurable :
    (simulate_match (mkEloPlayer 1500) (mkEloPlayer 1500) (1/4)).2.1.rating = 1516 ∧
    (simulate_match_with_k 16 (mkEloPlayer 1500) (mkEloPlayer 1500) (1/4)).2.1.rating = 1508 ∧
    (1516 : ℝ) ≠ 1508 := by
  refine ⟨by rw [simulate_match_eval], ?_, by norm_num⟩
  norm_num [simulate_match_with_k, EloPlayer.update_rating, EloPlayer.expected_score,
    mkEloPlayer, Real.rpow_zero]

/-- C9 (amended): `simulate_match` takes no `kFactor` parameter; every
update it performs uses the default k-factor 32 — it coincides with the
spec's configurable match simulation instantiated at `kFactor = 32`. -/
theorem simulate_match_uses_default_k (player1 player2 : EloPlayer) (random_value : ℝ) :
    simulate_match player1 player2 random_value =
      simulate_match_with_k 32 player1 player2 random_value := rfl

/-! ## Counting matches played across a simulation run -/

/-- `random.choice` only returns members of the sequence. -/
lemma random_choice_some_mem {α : Type} (seq : List α) (pick : ℕ) (a : α)
    (h : random_choice seq pick = some a) : a ∈ seq :=
  List.getElem?_mem h

/-- Writing at index `n` changes only index `n` (read via `getD`). -/
lemma getD_set_ne (l : List EloPlayer) (m n : ℕ) (a : EloPlayer) (h : m ≠ n) :
    (l.set m a).getD n default = l.getD n default := by
  rw [List.getD_eq_getElem?_getD, List.getD_eq_getElem?_getD, List.getElem?_set_ne h]

/-- Writing at a valid index `n` makes `getD n` return the new value. -/
lemma getD_set_self (l : List EloPlayer) (n : ℕ) (a : EloPlayer) (h : n < l.length) :
    (l.set n a).getD n default = a := by
  rw [List.getD_eq_getElem?_getD, List.getElem?_set_eq_of_lt a h]
  rfl

/-- Replacing one element shifts the sum of any projection by the
difference of the projections (stated additively over `ℕ`). -/
lemma sum_map_set (f : EloPlayer → ℕ) :
    ∀ (l : List EloPlayer) (n : ℕ) (a : EloPlayer), n < l.length →
      ((l.set n a).map f).sum + f (l.getD n default) = (l.map f).sum + f a := by
  intro l
  induction l with
  | nil =>
    intro n a h
    simp at h
  | cons x xs ih =>
    intro n a h
    cases n with
    | zero =>
      simp only [List.set_cons_zero, List.map_cons, List.sum_cons, List.getD_cons_zero]
      omega
    | succ k =>
      simp only [List.set_cons_succ, List.map_cons, List.sum_cons, List.getD_cons_succ]
      have hk : k < xs.length := by
        simp at h
        omega
      have := ih k a hk
      omega

/-- Both branches of `simulate_match` return winner 1 or 2 and increment
each participant's `matches_played` by exactly one. -/
lemma simulate_match_parts (p1 p2 : EloPlayer) (rv : ℝ) :
    ((simulate_match p1 p2 rv).1 = 1 ∨ (simulate_match p1 p2 rv).1 = 2) ∧
    (simulate_match p1 p2 rv).2.1.matches_played = p1.matches_played + 1 ∧
    (simulate_match p1 p2 rv).2.2.matches_played = p2.matches_played + 1 := by
  unfold simulate_match
  dsimp only
  split
  · exact ⟨Or.inl rfl, rfl, rfl⟩
  · exact ⟨Or.inr rfl, rfl, rfl⟩

/-- What one successful `simulation_round` does to the population:
the length is unchanged, the total of `matches_played` grows by exactly
2, the winner indicator is 1 or 2, and exactly the two (distinct)
participants have their counters incremented by one, with every other
player untouched. -/
lemma simulation_round_spec (players : List EloPlayer) (pick1 pick2 : ℕ) (rv : ℝ)
    (out : List EloPlayer × ℕ)
    (h : simulation_round players pick1 pick2 rv = some out) :
    out.1.length = players.length ∧
    (out.1.map EloPlayer.matches_played).sum =
      (players.map EloPlayer.matches_played).sum + 2 ∧
    (out.2 = 1 ∨ out.2 = 2) ∧
    (∃ i j, i < players.length ∧ j < players.length ∧ i ≠ j ∧
      (out.1.getD i default).matches_played =
        (players.getD i default).matches_played + 1 ∧
      (out.1.getD j default).matches_played =
        (players.getD j default).matches_played + 1 ∧
      ∀ k, k ≠ i → k ≠ j → out.1.getD k default = players.getD k default) := by
  unfold simulation_round at h
  cases hc1 : random_choice (List.range players.length) pick1 with
  | none => rw [hc1] at h; exact absurd h (by simp)
  | some i =>
    rw [hc1] at h
    cases hc2 : MatchmakingSystem.find_match ⟨players, 0.2⟩ i pick2 with
    | none => simp [hc2] at h
    | some j =>
      simp only [hc2] at h
      have hi : i < players.length := by
        have := random_choice_some_mem _ _ _ hc1
        exact List.mem_range.mp this
      have hj' : j ∈ MatchmakingSystem.potential_opponents ⟨players, 0.2⟩ i := by
        rw [MatchmakingSystem.find_match] at hc2
        exact random_choice_some_mem _ _ _ hc2
      have hjspec := (mem_potential_opponents ⟨players, 0.2⟩ i j).mp hj'
      have hj : j < players.length := hjspec.1
      have hji : j ≠ i := hjspec.2.1
      obtain rfl : ((players.set i (simulate_match (players.getD i default)
          (players.getD j default) rv).2.1).set j (simulate_match (players.getD i default)
          (players.getD j default) rv).2.2,
          (simulate_match (players.getD i default) (players.getD j default) rv).1) = out :=
        Option.some.inj h
      obtain ⟨hwin, hm1, hm2⟩ :=
        simulate_match_parts (players.getD i default) (players.getD j default) rv
      generalize hres :
        simulate_match (players.getD i default) (players.getD j default) rv = res
        at hwin hm1 hm2 ⊢
      refine ⟨by simp, ?_, hwin, ?_⟩
      · -- sum bookkeeping: two single-point writes
        have hs1 := sum_map_set EloPlayer.matches_played players i res.2.1 hi
        have hs2 := sum_map_set EloPlayer.matches_played (players.set i res.2.1) j res.2.2
          (by simpa using hj)
        have hgd : (players.set i res.2.1).getD j default = players.getD j default :=
          getD_set_ne players i j res.2.1 (fun hij => hji hij.symm)
        rw [hgd] at hs2
        dsimp only
        omega
      · refine ⟨i, j, hi, hj, fun hij => hji hij.symm, ?_, ?_, ?_⟩
        · rw [getD_set_ne _ j i _ hji, getD_set_self _ _ _ hi]
          exact hm1
        · rw [getD_set_self _ _ _ (by simpa using hj)]
          exact hm2
        · intro k hki hkj
          rw [getD_set_ne _ j k _ (fun hjk => hkj hjk.symm),
            getD_set_ne _ i k _ (fun hik => hki hik.symm)]

/-- Once a round has raised, the rest of the loop stays raised. -/
lemma foldl_simulation_step_none (rounds : List (ℕ × ℕ × ℝ)) :
    rounds.foldl simulation_step none = none := by
  induction rounds with
  | nil => rfl
  | cons r t ih =>
    rw [List.foldl_cons]
    exact ih

/-- Loop invariant of the driver's match loop: starting from any
population and results log, a successful run of `rounds` adds exactly
`rounds.length` winner indicators (each 1 or 2), adds `2·rounds.length`
to the total of `matches_played`, and preserves the population size. -/
lemma foldl_simulation_step_spec (rounds : List (ℕ × ℕ × ℝ)) :
    ∀ (ps0 : List EloPlayer) (res0 : List ℕ) (out : List EloPlayer × List ℕ),
      rounds.foldl simulation_step (some (ps0, res0)) = some out →
      out.2.length = res0.length + rounds.length ∧
      (out.1.map EloPlayer.matches_played).sum =
        (ps0.map EloPlayer.matches_played).sum + 2 * rounds.length ∧
      (∀ w ∈ out.2, w ∈ res0 ∨ w = 1 ∨ w = 2) ∧
      out.1.length = ps0.length := by
  induction rounds with
  | nil =>
    intro ps0 res0 out h
    rw [List.foldl_nil] at h
    obtain rfl : (ps0, res0) = out := Option.some.inj h
    exact ⟨by simp, by simp, fun w hw => Or.inl hw, rfl⟩
  | cons r t ih =>
    intro ps0 res0 out h
    rw [List.foldl_cons] at h
    cases hr : simulation_round ps0 r.1 r.2.1 r.2.2 with
    | none =>
      rw [show simulation_step (some (ps0, res0)) r = none by
        simp [simulation_step, hr]] at h
      rw [foldl_simulation_step_none] at h
      exact absurd h (by simp)
    | some out1 =>
      obtain ⟨ps1, w1⟩ := out1
      rw [show simulation_step (some (ps0, res0)) r = some (ps1, res0 ++ [w1]) by
        simp [simulation_step, hr]] at h
      obtain ⟨h1, h2, h3, h4⟩ := ih ps1 (res0 ++ [w1]) out h
      obtain ⟨hl, hs, hw, -⟩ := simulation_round_spec ps0 r.1 r.2.1 r.2.2 (ps1, w1) hr
      refine ⟨?_, ?_, ?_, ?_⟩
      · rw [h1]
        simp only [List.length_append, List.length_cons, List.length_nil]
        omega
      · rw [h2]
        dsimp only at hs
        rw [hs]
        simp only [List.length_cons]
        ring
      · intro w hw2
        rcases h3 w hw2 with hmem | hval
        · rcases List.mem_append.mp hmem with hmem0 | hmem1
          · exact Or.inl hmem0
          · have : w = w1 := List.mem_singleton.mp hmem1
            subst this
            dsimp only at hw
            exact Or.inr hw
        · exact Or.inr hval
      · rw [h4]
        exact hl

/-- C10: each simulated round increments `matches_played` of exactly the
two (distinct) match participants by one each, so after a full run of
`monte_carlo_elo_simulation` the sum of `matches_played` over all
returned players equals `2 · numMatches`, the results log has one entry
per round, and every entry is 1 or 2. -/
theorem monte_carlo_matches_played (num_players : ℕ) (initial_rating : ℝ)
    (rounds : List (ℕ × ℕ × ℝ)) (players : List EloPlayer) (match_results : List ℕ)
    (h : monte_carlo_elo_simulation num_players initial_rating rounds =
      some (players, match_results)) :
    (players.map EloPlayer.matches_played).sum = 2 * rounds.length ∧
    match_results.length = rounds.length ∧
    (∀ w ∈ match_results, w = 1 ∨ w = 2) ∧
    (∀ (ps : List EloPlayer) (pick1 pick2 : ℕ) (rv : ℝ) (out : List EloPlayer × ℕ),
      simulation_round ps pick1 pick2 rv = some out →
      ∃ i j, i < ps.length ∧ j < ps.length ∧ i ≠ j ∧
        (out.1.getD i default).matches_played =
          (ps.getD i default).matches_played + 1 ∧
        (out.1.getD j default).matches_played =
          (ps.getD j default).matches_played + 1 ∧
        ∀ k, k ≠ i → k ≠ j → out.1.getD k default = ps.getD k default) := by
  unfold monte_carlo_elo_simulation at h
  dsimp only at h
  obtain ⟨h1, h2, h3, -⟩ := foldl_simulation_step_spec rounds
    ((List.range num_players).map (fun _ => mkEloPlayer initial_rating)) []
    (players, match_results) h
  have hsum0 : (((List.range num_players).map (fun _ => mkEloPlayer initial_rating)).map
      EloPlayer.matches_played).sum = 0 := by
    simp [mkEloPlayer, List.map_map, Function.comp]
  refine ⟨?_, ?_, ?_, ?_⟩
  · dsimp only at h2
    rw [hsum0] at h2
    simpa using h2
  · simpa using h1
  · intro w hw
    rcases h3 w hw with hmem | hval
    · exact absurd hmem (List.not_mem_nil w)
    · exact hval
  · intro ps pick1 pick2 rv out hround
    exact (simulation_round_spec ps pick1 pick2 rv out hround).2.2.2

/-- One concrete round on a two-player population: the draw `1/4 < 1/2`
makes player 0 win and move to 1516; player 1 is then updated against
the already-mutated rating 1516. -/
lemma simulation_round_eval :
    simulation_round [mkEloPlayer 1500, mkEloPlayer 1500] 0 0 (1/4) =
      some ([⟨1516, [1500, 1516], 1⟩,
             ⟨1500 - 32 * (1 / (1 + (10:ℝ) ^ ((1:ℝ)/25))),
              [1500, 1500 - 32 * (1 / (1 + (10:ℝ) ^ ((1:ℝ)/25)))], 1⟩], 1) := by
  unfold simulation_round
  rw [show random_choice (List.range
      (List.length ([mkEloPlayer 1500, mkEloPlayer 1500] : List EloPlayer))) 0 =
      some 0 from rfl]
  simp only [find_match_pair, List.getD_cons_zero, List.getD_cons_succ,
    simulate_match_eval, List.set_cons_zero, List.set_cons_succ]

/-- A full one-round run of the driver on two 1500-rated players. -/
lemma monte_carlo_eval :
    monte_carlo_elo_simulation 2 1500 [(0, 0, 1/4)] =
      some ([⟨1516, [1500, 1516], 1⟩,
             ⟨1500 - 32 * (1 / (1 + (10:ℝ) ^ ((1:ℝ)/25))),
              [1500, 1500 - 32 * (1 / (1 + (10:ℝ) ^ ((1:ℝ)/25)))], 1⟩], [1]) := by
  unfold monte_carlo_elo_simulation
  dsimp only
  rw [show (List.range 2).map (fun _ => mkEloPlayer 1500) =
      [mkEloPlayer 1500, mkEloPlayer 1500] from rfl]
  simp only [List.foldl_cons, List.foldl_nil, simulation_step, simulation_round_eval,
    List.nil_append]

/-- Witness for `monte_carlo_matches_played` at the concrete one-round,
two-player run. -/
theorem monte_carlo_matches_played_witness :
    (([⟨1516, [1500, 1516], 1⟩,
       ⟨1500 - 32 * (1 / (1 + (10:ℝ) ^ ((1:ℝ)/25))),
        [1500, 1500 - 32 * (1 / (1 + (10:ℝ) ^ ((1:ℝ)/25)))], 1⟩] :
        List EloPlayer).map EloPlayer.matches_played).sum =
      2 * ([((0:ℕ), (0:ℕ), (1/4:ℝ))].length) ∧
    ([1] : List ℕ).length = [((0:ℕ), (0:ℕ), (1/4:ℝ))].length :=
  ⟨(monte_carlo_matches_played 2 1500 [(0, 0, 1/4)] _ _ monte_carlo_eval).1,
   (monte_carlo_matches_played 2 1500 [(0, 0, 1/4)] _ _ monte_carlo_eval).2.1⟩
